import Mathlib

/-!
# Verification of the seo-mcp heading-analysis and scoring core

Shallow embedding of `src/services/heading-analyzer.ts` and
`src/services/scoring.ts` (with the constants of
`src/constants/seo-rules.ts` and the record types of the TypeScript
interfaces), together with proofs of the specified properties.

Modelling conventions:
* JavaScript numbers that only ever hold (possibly negative) integers are
  `Int`; values produced by division are modelled exactly as `ℚ`.
* `Math.round` is rounding half towards positive infinity, `⌊x + 1/2⌋`.
* `string | null` fields are `Option String`; JS string truthiness
  (`null` and `""` are both falsy) is modelled explicitly.
* Sequential `array.push` loops become list concatenations / folds.
-/

namespace SeoMcp

/-- JS `Math.max(0, Math.min(100, x))`, the clamp used by every scorer. -/
def jsClamp (x : Int) : Int := max 0 (min 100 x)

/-- JS `Math.round`: rounds half towards positive infinity. -/
def jsRound (q : ℚ) : Int := ⌊q + 1/2⌋

/-- JS truthiness of a `string | null` value: `null` and `""` are falsy. -/
def jsTruthyStr : Option String → Bool
  | none => false
  | some s => !s.isEmpty

/-- JS `text.trim()`: strip leading and trailing whitespace. -/
def jsTrim (s : String) : String :=
  ⟨((s.data.dropWhile Char.isWhitespace).reverse.dropWhile Char.isWhitespace).reverse⟩

/-- JS `text.toLowerCase()` (ASCII case mapping). -/
def jsToLower (s : String) : String := ⟨s.data.map Char.toLower⟩

/-- JS `tag.toUpperCase()` (ASCII case mapping). -/
def jsToUpper (s : String) : String := ⟨s.data.map Char.toUpper⟩

/-! ## Constants from `src/constants/seo-rules.ts` -/

/-- Length thresholds shared by the title and meta-description rules. -/
structure LengthRules where
  minLength : Nat
  maxLength : Nat
  idealMinLength : Nat
  idealMaxLength : Nat

structure HeadingRules where
  maxH1Count : Nat
  maxEmptyHeadings : Nat

structure LinkRules where
  maxPerPage : Nat

structure ContentRules where
  minWordCountHomepage : Nat
  thinContentThreshold : Nat

/-- The fields of the `SEO_RULES` constant that the core reads
(unused rule groups such as `performance` or `mobile` are omitted). -/
structure SeoRules where
  title : LengthRules
  metaDescription : LengthRules
  headings : HeadingRules
  links : LinkRules
  content : ContentRules

def SEO_RULES : SeoRules where
  title := { minLength := 30, maxLength := 60, idealMinLength := 50, idealMaxLength := 60 }
  metaDescription := { minLength := 70, maxLength := 160, idealMinLength := 150, idealMaxLength := 160 }
  headings := { maxH1Count := 1, maxEmptyHeadings := 0 }
  links := { maxPerPage := 150 }
  content := { minWordCountHomepage := 200, thinContentThreshold := 200 }

/-- The `SCORE_WEIGHTS` constant. -/
structure ScoreWeights where
  title : Nat
  metaDescription : Nat
  headings : Nat
  images : Nat
  links : Nat
  canonical : Nat
  openGraph : Nat
  robots : Nat
  content : Nat

def SCORE_WEIGHTS : ScoreWeights where
  title := 20
  metaDescription := 10
  headings := 15
  images := 10
  links := 10
  canonical := 10
  openGraph := 5
  robots := 10
  content := 10

/-! ## The `PageAnalysis` record (`src/types/seo-types.ts`) -/

structure TitleAnalysis where
  text : Option String
  length : Nat
  issues : List String

structure MetaDescriptionAnalysis where
  text : Option String
  length : Nat
  issues : List String

structure CanonicalAnalysis where
  url : Option String
  isSelfReferencing : Bool
  issues : List String

structure RobotsAnalysis where
  meta : Option String
  xRobotsTag : Option String
  isIndexable : Bool

structure OpenGraphAnalysis where
  title : Option String
  description : Option String
  image : Option String
  url : Option String
  type : Option String
  issues : List String

structure HeadingSummary where
  h1Count : Nat
  h1Text : List String
  totalHeadings : Nat
  issues : List String

structure ImageSummary where
  total : Nat
  missingAlt : Nat
  issues : List String

structure LinkSummary where
  internal : Nat
  external : Nat
  nofollow : Nat

structure ContentAnalysis where
  wordCount : Nat
  readabilityScore : Nat

/-- The aggregate scorer input.  The `score : SeoScore` output slot of the
TypeScript interface is omitted: `calculateSeoScore` never reads it. -/
structure PageAnalysis where
  url : String
  statusCode : Nat
  redirectChain : List String
  responseTime : Nat
  title : TitleAnalysis
  metaDescription : MetaDescriptionAnalysis
  canonical : CanonicalAnalysis
  robots : RobotsAnalysis
  openGraph : OpenGraphAnalysis
  headings : HeadingSummary
  images : ImageSummary
  links : LinkSummary
  content : Option ContentAnalysis

structure ScoreBreakdown where
  title : Int
  meta : Int
  headings : Int
  images : Int
  links : Int
  technical : Int

structure SeoScore where
  overall : Int
  breakdown : ScoreBreakdown

/-! ## Per-category scorers (`src/services/scoring.ts`) -/

def scoreTitleCategory (analysis : PageAnalysis) : Int :=
  let title := analysis.title
  if !jsTruthyStr title.text then 0 else
  let len := title.length
  let score : Int :=
    if SEO_RULES.title.idealMinLength ≤ len ∧ len ≤ SEO_RULES.title.idealMaxLength then 100
    else if SEO_RULES.title.minLength ≤ len ∧ len ≤ SEO_RULES.title.maxLength then 80
    else if len > SEO_RULES.title.maxLength then 50
    else if len < SEO_RULES.title.minLength ∧ len > 0 then 40
    else 60
  jsClamp (score - title.issues.length * 10)

def scoreMetaCategory (analysis : PageAnalysis) : Int :=
  let metaDescription := analysis.metaDescription
  if !jsTruthyStr metaDescription.text then 0 else
  let len := metaDescription.length
  let score : Int :=
    if SEO_RULES.metaDescription.idealMinLength ≤ len ∧ len ≤ SEO_RULES.metaDescription.idealMaxLength then 100
    else if SEO_RULES.metaDescription.minLength ≤ len ∧ len ≤ SEO_RULES.metaDescription.maxLength then 80
    else if len > SEO_RULES.metaDescription.maxLength then 50
    else if len < SEO_RULES.metaDescription.minLength ∧ len > 0 then 40
    else 60
  jsClamp (score - metaDescription.issues.length * 10)

def scoreHeadingsCategory (analysis : PageAnalysis) : Int :=
  let headings := analysis.headings
  let score : Int := 100
  let score := if headings.h1Count = 0 then score - 40
    else if headings.h1Count > SEO_RULES.headings.maxH1Count then score - 20
    else score
  let score := if headings.totalHeadings = 0 then score - 30 else score
  jsClamp (score - headings.issues.length * 10)

def scoreImagesCategory (analysis : PageAnalysis) : Int :=
  let images := analysis.images
  if images.total = 0 then 100 else
  let missingAltRatio : ℚ := (images.missingAlt : ℚ) / (images.total : ℚ)
  let score : Int := 100
  let score := if missingAltRatio > 1/2 then score - 40
    else if missingAltRatio > 1/5 then score - 20
    else if missingAltRatio > 0 then score - 10
    else score
  jsClamp (score - images.issues.length * 5)

def scoreLinksCategory (analysis : PageAnalysis) : Int :=
  let links := analysis.links
  let score : Int := 100
  let score := if links.internal = 0 then score - 20 else score
  let totalLinks := links.internal + links.external
  let score := if totalLinks > SEO_RULES.links.maxPerPage then score - 15 else score
  let score := if totalLinks = 0 then score - 30 else score
  jsClamp score

def scoreCanonicalCategory (analysis : PageAnalysis) : Int :=
  let canonical := analysis.canonical
  if !jsTruthyStr canonical.url then 30 else
  jsClamp (100 - canonical.issues.length * 15)

def scoreOpenGraphCategory (analysis : PageAnalysis) : Int :=
  let openGraph := analysis.openGraph
  let score : Int := 0
  let score := if jsTruthyStr openGraph.title then score + 25 else score
  let score := if jsTruthyStr openGraph.description then score + 25 else score
  let score := if jsTruthyStr openGraph.image then score + 25 else score
  let score := if jsTruthyStr openGraph.url then score + 15 else score
  let score := if jsTruthyStr openGraph.type then score + 10 else score
  jsClamp (score - openGraph.issues.length * 10)

def scoreRobotsCategory (analysis : PageAnalysis) : Int :=
  if !analysis.robots.isIndexable then 20 else 100

def scoreContentCategory (analysis : PageAnalysis) : Int :=
  match analysis.content with
  | none => 50
  | some content =>
    let score : Int := 100
    let score := if content.wordCount < SEO_RULES.content.thinContentThreshold then score - 40
      else if content.wordCount < SEO_RULES.content.minWordCountHomepage then score - 20
      else score
    jsClamp score

/-- `calculateSeoScore` (scoring.ts:150-193).  The `categories` record with
its mutated `weighted` slots is flattened into explicit bindings; the
`reduce` over `Object.values` becomes, in insertion order, the explicit sum
of the six per-category `score × weight / totalWeight` contributions. -/
def calculateSeoScore (analysis : PageAnalysis) : SeoScore :=
  let titleScore := scoreTitleCategory analysis
  let metaScore := scoreMetaCategory analysis
  let headingsScore := scoreHeadingsCategory analysis
  let imagesScore := scoreImagesCategory analysis
  let linksScore := scoreLinksCategory analysis
  let canonicalScore := scoreCanonicalCategory analysis
  let ogScore := scoreOpenGraphCategory analysis
  let robotsScore := scoreRobotsCategory analysis
  let contentScore := scoreContentCategory analysis
  let technicalWeight : Nat :=
    SCORE_WEIGHTS.canonical + SCORE_WEIGHTS.openGraph + SCORE_WEIGHTS.robots + SCORE_WEIGHTS.content
  let technicalScore : ℚ :=
    ((canonicalScore : ℚ) * SCORE_WEIGHTS.canonical +
     (ogScore : ℚ) * SCORE_WEIGHTS.openGraph +
     (robotsScore : ℚ) * SCORE_WEIGHTS.robots +
     (contentScore : ℚ) * SCORE_WEIGHTS.content) / (technicalWeight : ℚ)
  let technical : Int := jsRound technicalScore
  let totalWeight : Nat :=
    SCORE_WEIGHTS.title + SCORE_WEIGHTS.metaDescription + SCORE_WEIGHTS.headings +
      SCORE_WEIGHTS.images + SCORE_WEIGHTS.links + technicalWeight
  let overall : Int := jsRound
    ((titleScore : ℚ) * SCORE_WEIGHTS.title / (totalWeight : ℚ) +
     (metaScore : ℚ) * SCORE_WEIGHTS.metaDescription / (totalWeight : ℚ) +
     (headingsScore : ℚ) * SCORE_WEIGHTS.headings / (totalWeight : ℚ) +
     (imagesScore : ℚ) * SCORE_WEIGHTS.images / (totalWeight : ℚ) +
     (linksScore : ℚ) * SCORE_WEIGHTS.links / (totalWeight : ℚ) +
     (technical : ℚ) * (technicalWeight : ℚ) / (totalWeight : ℚ))
  { overall := jsClamp overall
    breakdown :=
      { title := titleScore, meta := metaScore, headings := headingsScore
        images := imagesScore, links := linksScore, technical := technical } }

/-! ## Heading analysis (`src/services/heading-analyzer.ts`)

The HTTP fetch and DOM scan of `analyzeHeadings` (lines 141-152) are
external collaborators; the embedding starts from the flat heading list
they produce and models the pure computation that follows (lines 154-178).
-/

structure FlatHeading where
  tag : String
  text : String
  order : Nat
deriving DecidableEq, Repr

structure HeadingNode where
  tag : String
  text : String
  order : Nat
  children : List HeadingNode

structure SeoIssue where
  type : String
  severity : String
  detail : String
deriving DecidableEq, Repr

/-- `getHeadingLevel`: JS `parseInt(tag.charAt(1), 10)`.  For a tag whose
second character is not a digit (or which is shorter than two characters)
the JS value is `NaN`; the embedding returns `0` there and theorems about
such inputs are stated only for valid heading tags. -/
def getHeadingLevel (tag : String) : Nat :=
  match tag.data with
  | _ :: c :: _ => if c.isDigit then c.toNat - 48 else 0
  | _ => 0

/-- The tags the document scanner can actually produce (`h1`…`h6`). -/
def validHeadingTag (tag : String) : Prop :=
  tag ∈ ["h1", "h2", "h3", "h4", "h5", "h6"]

instance (tag : String) : Decidable (validHeadingTag tag) := by
  unfold validHeadingTag; infer_instance

/-- One open entry of the builder's ancestor stack.  The source stores
`{ node, level }`; the stored `level` is never read back (the pop condition
re-parses `node.tag`), so the entry is just the node under construction,
whose `children` array is still growing while the entry is open. -/
structure StackEntry where
  tag : String
  text : String
  order : Nat
  children : List HeadingNode

def entryToNode (e : StackEntry) : HeadingNode :=
  ⟨e.tag, e.text, e.order, e.children⟩

/-- Builder state: the forest of finished roots plus the open ancestor
chain.  The stack's head is its top (the end of the JS array). -/
structure BuildState where
  tree : List HeadingNode
  stack : List StackEntry

/-- The `while` loop of `buildHeadingTree` (lines 30-32): pop open entries
whose level is `≥ level`.  The JS code attaches each node to its parent's
`children` array at creation and mutates that array in place while the
entry is open; the state-passing translation instead freezes an entry's
children when it is popped and attaches the finished node to the entry
below it (or to the root forest when the stack empties) — a popped entry
is never pushed again, so both views yield the same final forest.
`attachDown` is the loop continuation once the top has been closed: `node`
is the just-finished node, still to be attached to the first entry that
survives (or to the forest). -/
def attachDown (level : Nat) (tree : List HeadingNode) (node : HeadingNode) :
    List StackEntry → BuildState
  | [] => ⟨tree ++ [node], []⟩
  | parent :: rest =>
    let parent' : StackEntry := { parent with children := parent.children ++ [node] }
    if getHeadingLevel parent'.tag ≥ level then
      attachDown level tree (entryToNode parent') rest
    else ⟨tree, parent' :: rest⟩

def popWhile (level : Nat) (tree : List HeadingNode) : List StackEntry → BuildState
  | [] => ⟨tree, []⟩
  | top :: rest =>
    if getHeadingLevel top.tag ≥ level then attachDown level tree (entryToNode top) rest
    else ⟨tree, top :: rest⟩

/-- The body of the `for` loop of `buildHeadingTree` (lines 21-43). -/
def buildStep (s : BuildState) (item : FlatHeading) : BuildState :=
  let level := getHeadingLevel item.tag
  let s' := popWhile level s.tree s.stack
  ⟨s'.tree, ⟨item.tag, item.text, item.order, []⟩ :: s'.stack⟩

/-- `buildHeadingTree` (lines 17-46).  The final `popWhile 0` flushes the
still-open entries into the forest (every level is `≥ 0`), materialising
the attachments the JS code performed eagerly via mutation. -/
def buildHeadingTree (flatList : List FlatHeading) : List HeadingNode :=
  let final := flatList.foldl buildStep ⟨[], []⟩
  (popWhile 0 final.tree final.stack).tree

/-- `countByLevel` (lines 48-54): the `Record<string, number>` is a total
function defaulting to `0`, updated by the same left fold. -/
def countByLevel (flatList : List FlatHeading) : String → Nat :=
  flatList.foldl (fun counts item t => if t = item.tag then counts item.tag + 1 else counts t)
    (fun _ => 0)

structure KeywordPresence where
  inH1 : Bool
  inH2 : List String
  count : Nat
deriving DecidableEq, Repr

/-- JS `haystack.includes(needle)`: substring containment. -/
def strIncludes (haystack pat : String) : Bool :=
  decide (pat.data <:+: haystack.data)

/-- `checkKeywordPresence` (lines 56-75). -/
def checkKeywordPresence (flatList : List FlatHeading) (keyword : String) : KeywordPresence :=
  let lower := jsToLower keyword
  flatList.foldl
    (fun acc item =>
      let textLower := jsToLower item.text
      if strIncludes textLower lower then
        { inH1 := acc.inH1 || item.tag == "h1"
          inH2 := if item.tag == "h2" then acc.inH2 ++ [item.text] else acc.inH2
          count := acc.count + 1 }
      else acc)
    ⟨false, [], 0⟩

/-- The H1-count segment of `identifyIssues` (lines 80-93). -/
def h1CountIssues (counts : String → Nat) : List SeoIssue :=
  let h1Count := counts "h1"
  if h1Count = 0 then
    [⟨"missing_h1", "critical", "Page is missing an H1 heading"⟩]
  else if h1Count > SEO_RULES.headings.maxH1Count then
    [⟨"multiple_h1", "high",
      "Page has " ++ toString h1Count ++ " H1 headings (recommended: " ++
        toString SEO_RULES.headings.maxH1Count ++ ")"⟩]
  else []

/-- The empty-heading segment of `identifyIssues` (lines 95-103); the JS
falsiness test `!item.text.trim()` holds exactly when the trimmed text is
empty. -/
def emptyHeadingIssues (flatList : List FlatHeading) : List SeoIssue :=
  flatList.filterMap fun item =>
    if jsTrim item.text = "" then
      some ⟨"empty_heading", "medium",
        "Empty " ++ jsToUpper item.tag ++ " heading at position " ++ toString item.order⟩
    else none

/-- Detail text of a `skipped_level` issue between used levels `p < n`. -/
def skippedDetail (p n : Nat) : String :=
  let skippedStart := p + 1
  let skippedEnd := n - 1
  let skipped :=
    if skippedStart = skippedEnd then "H" ++ toString skippedStart
    else "H" ++ toString skippedStart ++ "-H" ++ toString skippedEnd
  "Heading level skipped: " ++ skipped ++ " (found H" ++ toString p ++
    " followed by H" ++ toString n ++ ")"

/-- The skipped-level segment of `identifyIssues` (lines 105-122):
`new Set(...)` of the levels in use (modelled as `dedup`, order irrelevant
because the next step sorts), sorted ascending by the numeric comparator
`(a, b) => a - b` (on a duplicate-free list, any sort yields the unique
ascending arrangement), then scanning adjacent pairs. -/
def skippedLevelIssues (flatList : List FlatHeading) : List SeoIssue :=
  let usedLevels := (flatList.map fun h => getHeadingLevel h.tag).dedup
  if usedLevels.length > 1 then
    let sorted := usedLevels.insertionSort (· ≤ ·)
    (sorted.zip sorted.tail).filterMap fun p =>
      if p.2 - p.1 > 1 then
        some ⟨"skipped_level", "medium", skippedDetail p.1 p.2⟩
      else none
  else []

/-- The first-heading segment of `identifyIssues` (lines 124-130). -/
def noH1FirstIssues (flatList : List FlatHeading) : List SeoIssue :=
  match flatList with
  | [] => []
  | first :: _ =>
    if getHeadingLevel first.tag ≠ 1 then
      [⟨"no_h1_first", "medium",
        "First heading is " ++ jsToUpper first.tag ++ ", expected H1"⟩]
    else []

/-- `identifyIssues` (lines 77-133): the sequential `issues.push` calls of
the four detection phases, in source order. -/
def identifyIssues (flatList : List FlatHeading) (counts : String → Nat) : List SeoIssue :=
  h1CountIssues counts ++ emptyHeadingIssues flatList ++
    skippedLevelIssues flatList ++ noH1FirstIssues flatList

structure HeadingAnalysis where
  headingTree : List HeadingNode
  flatList : List FlatHeading
  counts : String → Nat
  keywordPresence : Option KeywordPresence
  issues : List SeoIssue

/-- The pure tail of `analyzeHeadings` (lines 154-178), starting from the
scanned flat list.  `targetKeyword ? … : undefined` and
`if (targetKeyword && keywordPresence && !keywordPresence.inH1)` use JS
string truthiness, under which the empty string counts as absent. -/
def analyzeHeadings (flatList : List FlatHeading) (targetKeyword : Option String) :
    HeadingAnalysis :=
  let counts := countByLevel flatList
  let headingTree := buildHeadingTree flatList
  let issues := identifyIssues flatList counts
  let keywordPresence : Option KeywordPresence :=
    if jsTruthyStr targetKeyword then
      some (checkKeywordPresence flatList (targetKeyword.getD ""))
    else none
  let issues :=
    if jsTruthyStr targetKeyword then
      match keywordPresence with
      | some kp =>
        if !kp.inH1 then
          issues ++ [⟨"keyword_missing_h1", "high",
            "Target keyword \"" ++ targetKeyword.getD "" ++ "\" not found in H1"⟩]
        else issues
      | none => issues
    else issues
  { headingTree, flatList, counts, keywordPresence, issues }

/-! ## Specification-side definitions

These follow the wording of the specification, to be compared against the
embedded source functions. -/

/-- Spec: the weight of the synthetic technical category is the sum of the
four sub-weights. -/
def technicalWeightSpec : Nat :=
  SCORE_WEIGHTS.canonical + SCORE_WEIGHTS.openGraph + SCORE_WEIGHTS.robots + SCORE_WEIGHTS.content

/-- Spec: the weighted average of the canonical, openGraph, robots and
content category scores using their own sub-weights. -/
def technicalAverageSpec (a : PageAnalysis) : ℚ :=
  ((scoreCanonicalCategory a : ℚ) * SCORE_WEIGHTS.canonical +
   (scoreOpenGraphCategory a : ℚ) * SCORE_WEIGHTS.openGraph +
   (scoreRobotsCategory a : ℚ) * SCORE_WEIGHTS.robots +
   (scoreContentCategory a : ℚ) * SCORE_WEIGHTS.content) / (technicalWeightSpec : ℚ)

/-- Spec: `round(Σ category_score_i × weight_i / Σ weight_i)` over the six
blended categories, clamped to [0,100] — parametrised by the value used as
the technical category score. -/
def blendedOverallSpec (a : PageAnalysis) (technicalScore : ℚ) : Int :=
  let totalWeight : Nat :=
    SCORE_WEIGHTS.title + SCORE_WEIGHTS.metaDescription + SCORE_WEIGHTS.headings +
      SCORE_WEIGHTS.images + SCORE_WEIGHTS.links + technicalWeightSpec
  jsClamp (jsRound
    (((scoreTitleCategory a : ℚ) * SCORE_WEIGHTS.title +
      (scoreMetaCategory a : ℚ) * SCORE_WEIGHTS.metaDescription +
      (scoreHeadingsCategory a : ℚ) * SCORE_WEIGHTS.headings +
      (scoreImagesCategory a : ℚ) * SCORE_WEIGHTS.images +
      (scoreLinksCategory a : ℚ) * SCORE_WEIGHTS.links +
      technicalScore * (technicalWeightSpec : ℚ)) / (totalWeight : ℚ)))

/-- Spec formula for the links category, written as one closed-form clamp. -/
def linksScoreSpec (links : LinkSummary) : Int :=
  jsClamp (100 - (if links.internal = 0 then 20 else 0)
    - (if links.internal + links.external > SEO_RULES.links.maxPerPage then 15 else 0)
    - (if links.internal + links.external = 0 then 30 else 0))

/-- Spec: the trailing `keyword_missing_h1` segment of the issue list —
present exactly when a (truthy) keyword was supplied and no H1 matched. -/
def keywordIssueSpec (flatList : List FlatHeading) (targetKeyword : Option String) :
    List SeoIssue :=
  match targetKeyword with
  | none => []
  | some kw =>
    if kw ≠ "" ∧ (checkKeywordPresence flatList kw).inH1 = false then
      [⟨"keyword_missing_h1", "high", "Target keyword \"" ++ kw ++ "\" not found in H1"⟩]
    else []

/-- Spec: the skipped-level issues, without the more-than-one-level guard
(for zero or one distinct level there are no adjacent pairs anyway). -/
def skippedLevelIssuesSpec (flatList : List FlatHeading) : List SeoIssue :=
  let sorted := ((flatList.map fun h => getHeadingLevel h.tag).dedup).insertionSort (· ≤ ·)
  (sorted.zip sorted.tail).filterMap fun p =>
    if p.2 - p.1 > 1 then some ⟨"skipped_level", "medium", skippedDetail p.1 p.2⟩
    else none

/-- Spec: case-insensitive substring match of the keyword against a
heading's text. -/
def keywordMatches (kw : String) (h : FlatHeading) : Bool :=
  strIncludes (jsToLower h.text) (jsToLower kw)

/-- The one `missing_h1` record the detector can emit. -/
def missingH1Issue : SeoIssue :=
  ⟨"missing_h1", "critical", "Page is missing an H1 heading"⟩

/-- The `multiple_h1` record the detector emits for a given H1 count. -/
def multipleH1Issue (h1Count : Nat) : SeoIssue :=
  ⟨"multiple_h1", "high",
    "Page has " ++ toString h1Count ++ " H1 headings (recommended: " ++
      toString SEO_RULES.headings.maxH1Count ++ ")"⟩

/-- The `keyword_missing_h1` record emitted for a given keyword. -/
def keywordMissingH1Issue (kw : String) : SeoIssue :=
  ⟨"keyword_missing_h1", "high", "Target keyword \"" ++ kw ++ "\" not found in H1"⟩

/-- Well-formedness of a built heading node, as the specification states
it: children ordered by strictly ascending `order`, every child's parsed
level strictly greater than the parent's, recursively. -/
inductive NodeWF : HeadingNode → Prop where
  | mk (tag text : String) (order : Nat) (children : List HeadingNode)
      (hord : children.Chain' fun x y => x.order < y.order)
      (hlvl : ∀ c ∈ children, getHeadingLevel tag < getHeadingLevel c.tag)
      (hrec : ∀ c ∈ children, NodeWF c) :
      NodeWF ⟨tag, text, order, children⟩

/-- Some node of the tree has both orders among its direct children. -/
inductive TreeHasSibPair (o1 o2 : Nat) : HeadingNode → Prop where
  | here (tag text : String) (order : Nat) (children : List HeadingNode)
      (h1 : o1 ∈ children.map HeadingNode.order)
      (h2 : o2 ∈ children.map HeadingNode.order) :
      TreeHasSibPair o1 o2 ⟨tag, text, order, children⟩
  | child (tag text : String) (order : Nat) (children : List HeadingNode)
      (c : HeadingNode) (hc : c ∈ children) (h : TreeHasSibPair o1 o2 c) :
      TreeHasSibPair o1 o2 ⟨tag, text, order, children⟩

/-- The nodes with orders `o1` and `o2` are siblings in the forest: both
are roots, or some node has both among its direct children. -/
def areSiblings (f : List HeadingNode) (o1 o2 : Nat) : Prop :=
  (o1 ∈ f.map HeadingNode.order ∧ o2 ∈ f.map HeadingNode.order) ∨
    ∃ n ∈ f, TreeHasSibPair o1 o2 n

/-! ## Builder invariants (proof machinery) -/

def entryLevel (e : StackEntry) : Nat := getHeadingLevel e.tag

def nodeLevel (n : HeadingNode) : Nat := getHeadingLevel n.tag

def childOrders (children : List HeadingNode) : List Nat := children.map HeadingNode.order

def toEntry (n : HeadingNode) : StackEntry := ⟨n.tag, n.text, n.order, n.children⟩

/-- Invariant of the open ancestor stack (head is the top): every open
entry is well-formed as a node, levels strictly decrease downwards, each
entry's accumulated child orders lie below the order of the entry directly
above it, and all orders in the stack lie below the bound `B` (the order
of the next incoming heading). -/
def StackInv (B : Nat) (stack : List StackEntry) : Prop :=
  (∀ e ∈ stack, NodeWF (entryToNode e)) ∧
  (stack.Chain' fun u l =>
    entryLevel l < entryLevel u ∧ ∀ o ∈ childOrders l.children, o < u.order) ∧
  (∀ e ∈ stack, e.order < B ∧ ∀ o ∈ childOrders e.children, o < B)

def StateInv (B : Nat) (s : BuildState) : Prop :=
  (∀ n ∈ s.tree, NodeWF n) ∧ StackInv B s.stack

/-- A node about to be attached dominates the stack below it: the top
surviving entry has a strictly smaller level, and all its accumulated
child orders are below the node's order. -/
def DomApex (node : HeadingNode) (stack : List StackEntry) : Prop :=
  ∀ p ∈ stack.head?, entryLevel p < nodeLevel node ∧
    ∀ o ∈ childOrders p.children, o < node.order

/-- Configurations from which orders `o1` and `o2` end up siblings: the
pair already sits inside a finished node, or inside one open entry, or
`o1` is a finished child of the entry directly below the open entry with
order `o2`, or `o1` is already a root and the entry with order `o2` is the
bottom of the stack (a future root), or both are roots. -/
def SibState (o1 o2 : Nat) (s : BuildState) : Prop :=
  (∃ p ∈ s.stack.zip s.stack.tail, p.1.order = o2 ∧ o1 ∈ childOrders p.2.children) ∨
  (∃ e ∈ s.stack, o1 ∈ childOrders e.children ∧ o2 ∈ childOrders e.children) ∨
  (∃ n ∈ s.tree, TreeHasSibPair o1 o2 n) ∨
  (∃ e ∈ s.stack, ∃ c ∈ e.children, TreeHasSibPair o1 o2 c) ∨
  ((∃ r ∈ s.tree, r.order = o1) ∧ ∃ last ∈ s.stack.getLast?, last.order = o2) ∨
  ((∃ r ∈ s.tree, r.order = o1) ∧ ∃ r ∈ s.tree, r.order = o2)

/-- Configurations from which the heading with the given order, tag and
text ends up a forest root: already a root, or the bottom entry of the
stack. -/
def RootState (o : Nat) (tg tx : String) (s : BuildState) : Prop :=
  (∃ r ∈ s.tree, r.tag = tg ∧ r.text = tx ∧ r.order = o) ∨
  (∃ last ∈ s.stack.getLast?, last.tag = tg ∧ last.text = tx ∧ last.order = o)

/-! ## Concrete inputs used by counterexamples and witnesses -/

/-- A fully populated page analysis: ideal title and meta description, one
H1 with one recorded heading issue (headings score 90), no images, healthy
links, canonical present with two recorded issues (canonical score 70),
all five Open Graph fields present, indexable, long content. -/
def exAnalysis : PageAnalysis where
  url := "https://example.com"
  statusCode := 200
  redirectChain := []
  responseTime := 100
  title := ⟨some "Example Page Title About Search Engine Optimization", 55, []⟩
  metaDescription := ⟨some "A long meta description crafted to sit in the ideal window.", 155, []⟩
  canonical := ⟨some "https://example.com/", true, ["canonical issue a", "canonical issue b"]⟩
  robots := ⟨some "index, follow", none, true⟩
  openGraph := ⟨some "t", some "d", some "i", some "u", some "website", []⟩
  headings := ⟨1, ["Example"], 5, ["one heading issue"]⟩
  images := ⟨0, 0, []⟩
  links := ⟨10, 5, 0⟩
  content := some ⟨500, 60⟩

/-- The same page with no links of any kind. -/
def exNoLinks : PageAnalysis := { exAnalysis with links := ⟨0, 0, 0⟩ }

/-- Flat sequence using levels {1,2,4}. -/
def exLevels124 : List FlatHeading := [⟨"h1", "A", 1⟩, ⟨"h2", "B", 2⟩, ⟨"h4", "C", 3⟩]

/-- Flat sequence with two consecutive H2 siblings under an H1. -/
def exSiblings : List FlatHeading :=
  [⟨"h1", "Title", 1⟩, ⟨"h2", "Sec A", 2⟩, ⟨"h3", "Sub", 3⟩, ⟨"h2", "Sec B", 4⟩]

/-- Decomposed scan `[h1] ++ h2 :: h2 :: [h3]` for the sibling witness. -/
def exPairL1 : List FlatHeading := [⟨"h1", "Title", 1⟩]
def exPairA : FlatHeading := ⟨"h2", "A", 2⟩
def exPairB : FlatHeading := ⟨"h2", "B", 3⟩
def exPairL2 : List FlatHeading := [⟨"h3", "C", 4⟩]

/-! ## Helper lemmas -/

lemma jsClamp_bounds (x : Int) : 0 ≤ jsClamp x ∧ jsClamp x ≤ 100 := by
  unfold jsClamp; omega

lemma scoreTitleCategory_bounds (a : PageAnalysis) :
    0 ≤ scoreTitleCategory a ∧ scoreTitleCategory a ≤ 100 := by
  simp only [scoreTitleCategory]
  split
  · omega
  · exact jsClamp_bounds _

lemma scoreMetaCategory_bounds (a : PageAnalysis) :
    0 ≤ scoreMetaCategory a ∧ scoreMetaCategory a ≤ 100 := by
  simp only [scoreMetaCategory]
  split
  · omega
  · exact jsClamp_bounds _

lemma scoreHeadingsCategory_bounds (a : PageAnalysis) :
    0 ≤ scoreHeadingsCategory a ∧ scoreHeadingsCategory a ≤ 100 := by
  simp only [scoreHeadingsCategory]
  exact jsClamp_bounds _

lemma scoreImagesCategory_bounds (a : PageAnalysis) :
    0 ≤ scoreImagesCategory a ∧ scoreImagesCategory a ≤ 100 := by
  simp only [scoreImagesCategory]
  split
  · omega
  · exact jsClamp_bounds _

lemma scoreLinksCategory_bounds (a : PageAnalysis) :
    0 ≤ scoreLinksCategory a ∧ scoreLinksCategory a ≤ 100 := by
  simp only [scoreLinksCategory]
  exact jsClamp_bounds _

lemma scoreCanonicalCategory_bounds (a : PageAnalysis) :
    0 ≤ scoreCanonicalCategory a ∧ scoreCanonicalCategory a ≤ 100 := by
  simp only [scoreCanonicalCategory]
  split
  · omega
  · exact jsClamp_bounds _

lemma scoreOpenGraphCategory_bounds (a : PageAnalysis) :
    0 ≤ scoreOpenGraphCategory a ∧ scoreOpenGraphCategory a ≤ 100 := by
  simp only [scoreOpenGraphCategory]
  exact jsClamp_bounds _

lemma scoreRobotsCategory_bounds (a : PageAnalysis) :
    0 ≤ scoreRobotsCategory a ∧ scoreRobotsCategory a ≤ 100 := by
  simp only [scoreRobotsCategory]
  split <;> omega

lemma scoreContentCategory_bounds (a : PageAnalysis) :
    0 ≤ scoreContentCategory a ∧ scoreContentCategory a ≤ 100 := by
  simp only [scoreContentCategory]
  split
  · omega
  · exact jsClamp_bounds _

lemma mem_h1CountIssues (i : SeoIssue) (counts : String → Nat) (h : i ∈ h1CountIssues counts) :
    i.type = "missing_h1" ∨ i.type = "multiple_h1" := by
  simp only [h1CountIssues] at h
  split at h
  · simp only [List.mem_singleton] at h; subst h; left; rfl
  · split at h
    · simp only [List.mem_singleton] at h; subst h; right; rfl
    · simp at h

lemma mem_emptyHeadingIssues (i : SeoIssue) (l : List FlatHeading)
    (h : i ∈ emptyHeadingIssues l) : i.type = "empty_heading" ∧ i.severity = "medium" := by
  simp only [emptyHeadingIssues, List.mem_filterMap] at h
  obtain ⟨x, -, hx⟩ := h
  split at hx
  · cases hx; exact ⟨rfl, rfl⟩
  · cases hx

lemma mem_skippedLevelIssues (i : SeoIssue) (l : List FlatHeading)
    (h : i ∈ skippedLevelIssues l) : i.type = "skipped_level" ∧ i.severity = "medium" := by
  simp only [skippedLevelIssues] at h
  split at h
  · simp only [List.mem_filterMap] at h
    obtain ⟨x, -, hx⟩ := h
    split at hx
    · cases hx; exact ⟨rfl, rfl⟩
    · cases hx
  · simp at h

lemma mem_skippedLevelIssuesSpec (i : SeoIssue) (l : List FlatHeading)
    (h : i ∈ skippedLevelIssuesSpec l) : i.type = "skipped_level" ∧ i.severity = "medium" := by
  simp only [skippedLevelIssuesSpec, List.mem_filterMap] at h
  obtain ⟨x, -, hx⟩ := h
  split at hx
  · cases hx; exact ⟨rfl, rfl⟩
  · cases hx

lemma mem_noH1FirstIssues (i : SeoIssue) (l : List FlatHeading)
    (h : i ∈ noH1FirstIssues l) : i.type = "no_h1_first" ∧ i.severity = "medium" := by
  simp only [noH1FirstIssues] at h
  split at h
  · simp at h
  · split at h
    · simp only [List.mem_singleton] at h; subst h; exact ⟨rfl, rfl⟩
    · simp at h

/-- Type inventory: `identifyIssues` only ever emits these five codes. -/
lemma mem_identifyIssues_types (i : SeoIssue) (l : List FlatHeading) (counts : String → Nat)
    (h : i ∈ identifyIssues l counts) :
    i.type = "missing_h1" ∨ i.type = "multiple_h1" ∨ i.type = "empty_heading" ∨
      i.type = "skipped_level" ∨ i.type = "no_h1_first" := by
  simp only [identifyIssues, List.mem_append] at h
  rcases h with ((h | h) | h) | h
  · rcases mem_h1CountIssues i counts h with h' | h'
    · exact Or.inl h'
    · exact Or.inr (Or.inl h')
  · exact Or.inr (Or.inr (Or.inl (mem_emptyHeadingIssues i l h).1))
  · exact Or.inr (Or.inr (Or.inr (Or.inl (mem_skippedLevelIssues i l h).1)))
  · exact Or.inr (Or.inr (Or.inr (Or.inr (mem_noH1FirstIssues i l h).1)))

/-! ## Claim theorems -/

/-- C1 (counterexample): on `exAnalysis` the scorer returns an overall of
95, while the claimed formula — blending the *unrounded* weighted average
of the four technical sub-scores — yields 96.  The divergence comes from
`Math.round` being applied to the technical sub-blend before the final
blend. -/
theorem overall_claim_formula_counterexample :
    (calculateSeoScore exAnalysis).overall = 95 ∧
    blendedOverallSpec exAnalysis (technicalAverageSpec exAnalysis) = 96 := by
  have ht : scoreTitleCategory exAnalysis = 100 := rfl
  have hm : scoreMetaCategory exAnalysis = 100 := rfl
  have hh : scoreHeadingsCategory exAnalysis = 90 := rfl
  have hi : scoreImagesCategory exAnalysis = 100 := rfl
  have hl : scoreLinksCategory exAnalysis = 100 := rfl
  have hc : scoreCanonicalCategory exAnalysis = 70 := rfl
  have ho : scoreOpenGraphCategory exAnalysis = 100 := rfl
  have hr : scoreRobotsCategory exAnalysis = 100 := rfl
  have hco : scoreContentCategory exAnalysis = 100 := rfl
  constructor
  · simp only [calculateSeoScore, ht, hm, hh, hi, hl, hc, ho, hr, hco, SCORE_WEIGHTS]
    norm_num [jsRound, jsClamp]
  · simp only [blendedOverallSpec, technicalAverageSpec, technicalWeightSpec,
      ht, hm, hh, hi, hl, hc, ho, hr, hco, SCORE_WEIGHTS]
    norm_num [jsRound, jsClamp]

/-- C1 (amended): the overall score is the claimed clamped rounded
weighted blend of the six category scores, provided the technical category
score is taken as the *rounded* weighted average of the canonical,
openGraph, robots and content scores (rounding half up, as `Math.round`). -/
theorem calculateSeoScore_overall_blend (a : PageAnalysis) :
    (calculateSeoScore a).overall =
      blendedOverallSpec a ((jsRound (technicalAverageSpec a) : ℚ)) := by
  simp only [calculateSeoScore, blendedOverallSpec, technicalAverageSpec, technicalWeightSpec,
    SCORE_WEIGHTS]
  congr 2
  push_cast
  ring

/-- C6: every per-category scoring function stays within [0,100] on every
input. -/
theorem categoryScores_within_bounds (a : PageAnalysis) :
    (0 ≤ scoreTitleCategory a ∧ scoreTitleCategory a ≤ 100) ∧
    (0 ≤ scoreMetaCategory a ∧ scoreMetaCategory a ≤ 100) ∧
    (0 ≤ scoreHeadingsCategory a ∧ scoreHeadingsCategory a ≤ 100) ∧
    (0 ≤ scoreImagesCategory a ∧ scoreImagesCategory a ≤ 100) ∧
    (0 ≤ scoreLinksCategory a ∧ scoreLinksCategory a ≤ 100) ∧
    (0 ≤ scoreCanonicalCategory a ∧ scoreCanonicalCategory a ≤ 100) ∧
    (0 ≤ scoreOpenGraphCategory a ∧ scoreOpenGraphCategory a ≤ 100) ∧
    (0 ≤ scoreRobotsCategory a ∧ scoreRobotsCategory a ≤ 100) ∧
    (0 ≤ scoreContentCategory a ∧ scoreContentCategory a ≤ 100) :=
  ⟨scoreTitleCategory_bounds a, scoreMetaCategory_bounds a, scoreHeadingsCategory_bounds a,
   scoreImagesCategory_bounds a, scoreLinksCategory_bounds a, scoreCanonicalCategory_bounds a,
   scoreOpenGraphCategory_bounds a, scoreRobotsCategory_bounds a, scoreContentCategory_bounds a⟩

/-- C9: the links category score equals the closed-form clamp of
100 minus the zero-internal (20), over-maximum (15) and zero-total (30)
penalties; a page with no links at all scores 50 (the zero-internal and
zero-total penalties both apply). -/
theorem scoreLinksCategory_spec :
    (∀ a : PageAnalysis, scoreLinksCategory a = linksScoreSpec a.links) ∧
    scoreLinksCategory exNoLinks = 50 := by
  constructor
  · intro a
    simp only [scoreLinksCategory, linksScoreSpec]
    split_ifs <;> rfl
  · rfl

/-- C10: supplying the empty string as target keyword behaves exactly as
supplying no keyword: the same analysis record results, the
`keywordPresence` field is absent, and no `keyword_missing_h1` issue is
emitted. -/
theorem analyzeHeadings_empty_keyword (l : List FlatHeading) :
    analyzeHeadings l (some "") = analyzeHeadings l none ∧
    (analyzeHeadings l (some "")).keywordPresence = none ∧
    ((analyzeHeadings l (some "")).issues.all fun i => i.type ≠ "keyword_missing_h1") = true := by
  refine ⟨rfl, rfl, ?_⟩
  have hiss : (analyzeHeadings l (some "")).issues = identifyIssues l (countByLevel l) := rfl
  rw [hiss, List.all_eq_true]
  intro i hi
  rcases mem_identifyIssues_types i l (countByLevel l) hi with h | h | h | h | h <;>
    simp [h]

lemma h1CountIssues_eq (counts : String → Nat) :
    h1CountIssues counts =
      if counts "h1" = 0 then [missingH1Issue]
      else if counts "h1" > SEO_RULES.headings.maxH1Count then [multipleH1Issue (counts "h1")]
      else [] := rfl

lemma mem_identifyIssues_iff (r : SeoIssue) (l : List FlatHeading) (counts : String → Nat) :
    r ∈ identifyIssues l counts ↔
      r ∈ h1CountIssues counts ∨ r ∈ emptyHeadingIssues l ∨ r ∈ skippedLevelIssues l ∨
        r ∈ noH1FirstIssues l := by
  simp [identifyIssues, List.mem_append, or_assoc]

/-- C5: `missing_h1` (critical) is emitted iff the H1 count is zero,
`multiple_h1` (high) iff it exceeds the configured maximum (which is 1),
and the two are never emitted together. -/
theorem h1_count_issues_characterised (l : List FlatHeading) (counts : String → Nat) :
    (missingH1Issue ∈ identifyIssues l counts ↔ counts "h1" = 0) ∧
    (multipleH1Issue (counts "h1") ∈ identifyIssues l counts ↔
      counts "h1" > SEO_RULES.headings.maxH1Count) ∧
    (((identifyIssues l counts).any fun i => i.type == "missing_h1") &&
      ((identifyIssues l counts).any fun i => i.type == "multiple_h1")) = false ∧
    SEO_RULES.headings.maxH1Count = 1 := by
  have hmiss : ∀ i ∈ identifyIssues l counts, i.type = "missing_h1" → counts "h1" = 0 := by
    intro i hi ht
    rcases (mem_identifyIssues_iff i l counts).mp hi with h | h | h | h
    · rw [h1CountIssues_eq] at h
      split at h
      · assumption
      · split at h
        · simp only [List.mem_singleton] at h
          rw [h] at ht
          simp [multipleH1Issue] at ht
        · simp at h
    · rw [(mem_emptyHeadingIssues i l h).1] at ht; simp at ht
    · rw [(mem_skippedLevelIssues i l h).1] at ht; simp at ht
    · rw [(mem_noH1FirstIssues i l h).1] at ht; simp at ht
  have hmult : ∀ i ∈ identifyIssues l counts, i.type = "multiple_h1" →
      counts "h1" > SEO_RULES.headings.maxH1Count := by
    intro i hi ht
    rcases (mem_identifyIssues_iff i l counts).mp hi with h | h | h | h
    · rw [h1CountIssues_eq] at h
      split at h
      · simp only [List.mem_singleton] at h
        rw [h] at ht
        simp [missingH1Issue] at ht
      · split at h
        · assumption
        · simp at h
    · rw [(mem_emptyHeadingIssues i l h).1] at ht; simp at ht
    · rw [(mem_skippedLevelIssues i l h).1] at ht; simp at ht
    · rw [(mem_noH1FirstIssues i l h).1] at ht; simp at ht
  refine ⟨⟨fun h => hmiss _ h rfl, fun h0 => ?_⟩, ⟨fun h => hmult _ h rfl, fun h1 => ?_⟩, ?_, rfl⟩
  · exact (mem_identifyIssues_iff _ l counts).mpr (Or.inl (by simp [h1CountIssues_eq, h0]))
  · refine (mem_identifyIssues_iff _ l counts).mpr (Or.inl ?_)
    have h0 : ¬ counts "h1" = 0 := by omega
    simp [h1CountIssues_eq, h0, h1]
  · by_cases h0 : counts "h1" = 0
    · have : ((identifyIssues l counts).any fun i => i.type == "multiple_h1") = false := by
        rw [List.any_eq_false]
        intro i hi
        simp only [beq_iff_eq]
        intro ht
        have := hmult i hi ht
        omega
      simp [this]
    · have : ((identifyIssues l counts).any fun i => i.type == "missing_h1") = false := by
        rw [List.any_eq_false]
        intro i hi
        simp only [beq_iff_eq]
        intro ht
        exact h0 (hmiss i hi ht)
      simp [this]

lemma zip_tail_eq_nil_of_length_le_one {xs : List Nat} (h : xs.length ≤ 1) :
    xs.zip xs.tail = [] := by
  match xs, h with
  | [], _ => rfl
  | [x], _ => rfl

lemma skippedLevelIssues_eq_spec (l : List FlatHeading) :
    skippedLevelIssues l = skippedLevelIssuesSpec l := by
  simp only [skippedLevelIssues, skippedLevelIssuesSpec]
  split
  · rfl
  · rename_i hlen
    have h1 : ((l.map fun h => getHeadingLevel h.tag).dedup).length ≤ 1 := by omega
    have h2 : (((l.map fun h => getHeadingLevel h.tag).dedup).insertionSort (· ≤ ·)).length ≤ 1 := by
      rwa [List.length_insertionSort]
    rw [zip_tail_eq_nil_of_length_le_one h2]
    rfl

/-- C7: filtering the issue list down to `skipped_level` yields exactly one
medium issue per gap between adjacent ascending used levels, with the
detail naming the skipped range and the two bracketing levels; on levels
{1,2,4} exactly one issue naming H3 results. -/
theorem skipped_level_issues_characterised :
    (∀ (l : List FlatHeading) (counts : String → Nat),
      (identifyIssues l counts).filter (fun i => i.type == "skipped_level") =
        skippedLevelIssuesSpec l) ∧
    (identifyIssues exLevels124 (countByLevel exLevels124)).filter
        (fun i => i.type == "skipped_level") =
      [⟨"skipped_level", "medium", "Heading level skipped: H3 (found H2 followed by H4)"⟩] := by
  constructor
  · intro l counts
    have hh1 : (h1CountIssues counts).filter (fun i => i.type == "skipped_level") = [] := by
      rw [List.filter_eq_nil_iff]
      intro i hi
      rcases mem_h1CountIssues i counts hi with h | h <;> simp [h]
    have hemp : (emptyHeadingIssues l).filter (fun i => i.type == "skipped_level") = [] := by
      rw [List.filter_eq_nil_iff]
      intro i hi
      simp [(mem_emptyHeadingIssues i l hi).1]
    have hskip : (skippedLevelIssues l).filter (fun i => i.type == "skipped_level") =
        skippedLevelIssues l := by
      rw [List.filter_eq_self]
      intro i hi
      simp [(mem_skippedLevelIssues i l hi).1]
    have hfirst : (noH1FirstIssues l).filter (fun i => i.type == "skipped_level") = [] := by
      rw [List.filter_eq_nil_iff]
      intro i hi
      simp [(mem_noH1FirstIssues i l hi).1]
    simp only [identifyIssues, List.filter_append, hh1, hemp, hskip, hfirst,
      List.nil_append, List.append_nil]
    exact skippedLevelIssues_eq_spec l
  · rfl

/-- C4: the issue list is emitted in exactly the specified order — the H1
count issue, then the empty-heading issues in sequence order, then the
skipped-level issues over ascending used levels, then `no_h1_first`, and
finally `keyword_missing_h1` when a keyword was supplied and missed. -/
theorem issues_emission_order (l : List FlatHeading) (counts : String → Nat)
    (kw : Option String) :
    identifyIssues l counts =
      h1CountIssues counts ++ emptyHeadingIssues l ++ skippedLevelIssues l ++
        noH1FirstIssues l ∧
    (analyzeHeadings l kw).issues =
      identifyIssues l (countByLevel l) ++ keywordIssueSpec l kw := by
  refine ⟨rfl, ?_⟩
  match kw with
  | none => simp [analyzeHeadings, keywordIssueSpec, jsTruthyStr]
  | some k =>
    by_cases hk : k = ""
    · subst hk
      have h0 : ("" : String).isEmpty = true := rfl
      simp [analyzeHeadings, keywordIssueSpec, jsTruthyStr, h0]
    · have hke : k.isEmpty = false := by
        rcases hb : k.isEmpty with _ | _
        · rfl
        · exact absurd ((String.isEmpty_iff k).mp hb) hk
      have htr : jsTruthyStr (some k) = true := by
        simp [jsTruthyStr, hke]
      by_cases hh : (checkKeywordPresence l k).inH1
      · simp [analyzeHeadings, keywordIssueSpec, htr, hh, hk]
      · simp only [Bool.not_eq_true] at hh
        simp [analyzeHeadings, keywordIssueSpec, htr, hh, hk]

lemma checkKeywordPresence_foldl (kw : String) (ls : List FlatHeading) :
    ∀ acc : KeywordPresence,
      ls.foldl (fun acc item =>
        if strIncludes (jsToLower item.text) (jsToLower kw) then
          { inH1 := acc.inH1 || item.tag == "h1"
            inH2 := if item.tag == "h2" then acc.inH2 ++ [item.text] else acc.inH2
            count := acc.count + 1 }
        else acc) acc =
      ⟨acc.inH1 || ls.any (fun h => h.tag == "h1" && keywordMatches kw h),
       acc.inH2 ++ (ls.filter fun h => h.tag == "h2" && keywordMatches kw h).map FlatHeading.text,
       acc.count + ls.countP fun h => keywordMatches kw h⟩ := by
  induction ls with
  | nil => intro acc; simp
  | cons h t ih =>
    intro acc
    simp only [List.foldl_cons, List.any_cons, List.filter_cons, List.countP_cons, ih]
    by_cases hm : keywordMatches kw h
    · have hm' : strIncludes (jsToLower h.text) (jsToLower kw) = true := hm
      simp only [hm', if_pos, hm, Bool.and_true, KeywordPresence.mk.injEq]
      refine ⟨by simp [Bool.or_assoc], ?_, by omega⟩
      by_cases h2 : h.tag == "h2"
      · simp [h2, List.append_assoc]
      · simp [h2]
    · have hm0 : keywordMatches kw h = false := by simpa using hm
      have hm' : strIncludes (jsToLower h.text) (jsToLower kw) = false := hm0
      simp [hm', hm0]

/-- C8: keyword presence is the case-insensitive substring match over all
headings — `inH1` iff some H1 matches, `inH2` collects matching H2 texts
in order, `count` totals matches across all levels; the analysis stores it
and emits `keyword_missing_h1` (high) exactly when no H1 matched. -/
theorem keyword_presence_characterised (l : List FlatHeading) (kw : String) (hk : kw ≠ "") :
    (checkKeywordPresence l kw).inH1 = l.any (fun h => h.tag == "h1" && keywordMatches kw h) ∧
    (checkKeywordPresence l kw).inH2 =
      (l.filter fun h => h.tag == "h2" && keywordMatches kw h).map FlatHeading.text ∧
    (checkKeywordPresence l kw).count = l.countP (fun h => keywordMatches kw h) ∧
    (analyzeHeadings l (some kw)).keywordPresence = some (checkKeywordPresence l kw) ∧
    (keywordMissingH1Issue kw ∈ (analyzeHeadings l (some kw)).issues ↔
      (checkKeywordPresence l kw).inH1 = false) := by
  have hck : checkKeywordPresence l kw =
      ⟨l.any (fun h => h.tag == "h1" && keywordMatches kw h),
       (l.filter fun h => h.tag == "h2" && keywordMatches kw h).map FlatHeading.text,
       l.countP fun h => keywordMatches kw h⟩ := by
    have := checkKeywordPresence_foldl kw l ⟨false, [], 0⟩
    simpa [checkKeywordPresence] using this
  have hke : kw.isEmpty = false := by
    rcases hb : kw.isEmpty with _ | _
    · rfl
    · exact absurd ((String.isEmpty_iff kw).mp hb) hk
  have htr : jsTruthyStr (some kw) = true := by simp [jsTruthyStr, hke]
  have hnotin : keywordMissingH1Issue kw ∉ identifyIssues l (countByLevel l) := by
    intro hmem
    rcases mem_identifyIssues_types _ l (countByLevel l) hmem with h | h | h | h | h <;>
      simp [keywordMissingH1Issue] at h
  refine ⟨by rw [hck], by rw [hck], by rw [hck], ?_, ?_⟩
  · simp [analyzeHeadings, htr]
  · by_cases hh : (checkKeywordPresence l kw).inH1
    · have hiss : (analyzeHeadings l (some kw)).issues = identifyIssues l (countByLevel l) := by
        simp [analyzeHeadings, htr, hh]
      rw [hiss]
      simp [hnotin, hh]
    · simp only [Bool.not_eq_true] at hh
      have hiss : (analyzeHeadings l (some kw)).issues =
          identifyIssues l (countByLevel l) ++ [keywordMissingH1Issue kw] := by
        simp [analyzeHeadings, htr, hh, keywordMissingH1Issue]
      rw [hiss]
      simp [hh]

/-- Witness for C8 at a concrete page and keyword. -/
theorem keyword_presence_characterised_witness :
    ("seo" : String) ≠ "" ∧
    ((checkKeywordPresence exSiblings "seo").inH1 =
        exSiblings.any (fun h => h.tag == "h1" && keywordMatches "seo" h) ∧
      (checkKeywordPresence exSiblings "seo").inH2 =
        (exSiblings.filter fun h => h.tag == "h2" && keywordMatches "seo" h).map
          FlatHeading.text ∧
      (checkKeywordPresence exSiblings "seo").count =
        exSiblings.countP (fun h => keywordMatches "seo" h) ∧
      (analyzeHeadings exSiblings (some "seo")).keywordPresence =
        some (checkKeywordPresence exSiblings "seo") ∧
      (keywordMissingH1Issue "seo" ∈ (analyzeHeadings exSiblings (some "seo")).issues ↔
        (checkKeywordPresence exSiblings "seo").inH1 = false)) :=
  ⟨by decide, keyword_presence_characterised exSiblings "seo" (by decide)⟩

/-! ## Tree-builder invariant lemmas (towards C2) -/

lemma childOrders_append (c : List HeadingNode) (n : HeadingNode) :
    childOrders (c ++ [n]) = childOrders c ++ [n.order] := by
  simp [childOrders]

lemma mem_childOrders (c : List HeadingNode) (n : HeadingNode) (h : n ∈ c) :
    n.order ∈ childOrders c := by
  simp only [childOrders, List.mem_map]
  exact ⟨n, h, rfl⟩

/-- Attaching a finished node below a well-formed open entry preserves
well-formedness, provided the node's level dominates the entry's and its
order dominates the accumulated child orders. -/
lemma nodeWF_entry_attach (e : StackEntry) (node : HeadingNode)
    (he : NodeWF (entryToNode e))
    (hlvl : entryLevel e < nodeLevel node)
    (hord : ∀ o ∈ childOrders e.children, o < node.order)
    (hn : NodeWF node) :
    NodeWF (entryToNode { e with children := e.children ++ [node] }) := by
  obtain ⟨tag, text, order, children⟩ := e
  simp only [entryToNode] at he ⊢
  simp only [entryLevel, childOrders] at hlvl hord
  cases he with
  | mk _ _ _ _ hord' hlvl' hrec =>
    refine NodeWF.mk _ _ _ _ ?_ ?_ ?_
    · refine List.Chain'.append hord' (List.chain'_singleton _) ?_
      intro x hx y hy
      have hxmem : x ∈ children := List.mem_of_mem_getLast? hx
      have hy' : y = node := (by simpa using hy : node = y).symm
      subst hy'
      exact hord x.order (by simpa [childOrders] using mem_childOrders children x hxmem)
    · intro c hc
      rcases List.mem_append.mp hc with hc | hc
      · exact hlvl' c hc
      · have : c = node := by simpa using hc
        subst this
        exact hlvl
    · intro c hc
      rcases List.mem_append.mp hc with hc | hc
      · exact hrec c hc
      · have : c = node := by simpa using hc
        subst this
        exact hn

/-- The well-formed and bounded node `⟨tag,text,order,[]⟩` of a fresh
stack entry. -/
lemma nodeWF_fresh (tag text : String) (order : Nat) :
    NodeWF ⟨tag, text, order, []⟩ :=
  NodeWF.mk _ _ _ _ List.chain'_nil (by intro c hc; cases hc) (by intro c hc; cases hc)

/-- Core preservation: attaching the closed node down the stack keeps the
state invariant, and the resulting top (if any) has level `< level`. -/
lemma attachDown_inv (level B : Nat) (stack : List StackEntry) :
    ∀ (tree : List HeadingNode) (node : HeadingNode),
      (∀ n ∈ tree, NodeWF n) →
      NodeWF node →
      node.order < B →
      StackInv B stack →
      DomApex node stack →
      StateInv B (attachDown level tree node stack) ∧
        ∀ p ∈ (attachDown level tree node stack).stack.head?, entryLevel p < level := by
  induction stack with
  | nil =>
    intro tree node htree hn hb hs hd
    refine ⟨⟨?_, ?_, List.chain'_nil, ?_⟩, ?_⟩
    · intro n hn'
      rcases List.mem_append.mp hn' with h | h
      · exact htree n h
      · have : n = node := by simpa using h
        subst this; exact hn
    · intro e he; cases he
    · intro e he; cases he
    · intro p hp; simp [attachDown] at hp
  | cons parent rest ih =>
    intro tree node htree hn hb hs hd
    obtain ⟨hwf, hchain, hbnd⟩ := hs
    obtain ⟨hdl, hdo⟩ := hd parent (by simp)
    have hwfp : NodeWF (entryToNode { parent with children := parent.children ++ [node] }) :=
      nodeWF_entry_attach parent node (hwf parent (by simp)) hdl hdo hn
    have hrel : ∀ y ∈ rest.head?,
        entryLevel y < entryLevel parent ∧ ∀ o ∈ childOrders y.children, o < parent.order :=
      (List.chain'_cons'.mp hchain).1
    have hchainr : rest.Chain' fun u l =>
        entryLevel l < entryLevel u ∧ ∀ o ∈ childOrders l.children, o < u.order :=
      (List.chain'_cons'.mp hchain).2
    simp only [attachDown]
    split
    · -- the modified parent is also closed: recurse
      rename_i hge
      refine ih tree (entryToNode { parent with children := parent.children ++ [node] })
        htree hwfp ?_ ⟨?_, hchainr, ?_⟩ ?_
      · exact (hbnd parent (by simp)).1
      · intro e he; exact hwf e (by simp [he])
      · intro e he; exact hbnd e (by simp [he])
      · intro p hp
        obtain ⟨h1, h2⟩ := hrel p hp
        exact ⟨h1, fun o ho => h2 o ho⟩
    · -- the modified parent survives as the new top
      rename_i hlt
      push_neg at hlt
      refine ⟨⟨htree, ?_, ?_, ?_⟩, ?_⟩
      · intro e he
        rcases List.mem_cons.mp he with he | he
        · subst he; exact hwfp
        · exact hwf e (by simp [he])
      · refine List.chain'_cons'.mpr ⟨?_, hchainr⟩
        intro y hy
        exact hrel y hy
      · intro e he
        rcases List.mem_cons.mp he with he | he
        · subst he
          refine ⟨(hbnd parent (by simp)).1, ?_⟩
          intro o ho
          rw [childOrders_append] at ho
          rcases List.mem_append.mp ho with ho | ho
          · exact (hbnd parent (by simp)).2 o ho
          · have : o = node.order := by simpa using ho
            subst this; exact hb
        · exact hbnd e (by simp [he])
      · intro p hp
        have hp' : p = { parent with children := parent.children ++ [node] } :=
          (by simpa using hp :
            ({ parent with children := parent.children ++ [node] } : StackEntry) = p).symm
        subst hp'
        exact hlt

/-- `popWhile` preserves the invariant, and afterwards any surviving top
entry has level `< level`. -/
lemma popWhile_inv (level B : Nat) (tree : List HeadingNode) (stack : List StackEntry)
    (htree : ∀ n ∈ tree, NodeWF n) (hs : StackInv B stack) :
    StateInv B (popWhile level tree stack) ∧
      ∀ p ∈ (popWhile level tree stack).stack.head?, entryLevel p < level := by
  match stack with
  | [] =>
    refine ⟨⟨htree, hs⟩, ?_⟩
    intro p hp; simp [popWhile] at hp
  | top :: rest =>
    obtain ⟨hwf, hchain, hbnd⟩ := hs
    simp only [popWhile]
    split
    · refine attachDown_inv level B rest tree (entryToNode top) htree
        (hwf top (by simp)) ((hbnd top (by simp)).1) ⟨?_, ?_, ?_⟩ ?_
      · intro e he; exact hwf e (by simp [he])
      · exact (List.chain'_cons'.mp hchain).2
      · intro e he; exact hbnd e (by simp [he])
      · intro p hp
        exact (List.chain'_cons'.mp hchain).1 p hp
    · rename_i hlt
      push_neg at hlt
      refine ⟨⟨htree, hwf, hchain, hbnd⟩, ?_⟩
      intro p hp
      have hp' : p = top := (by simpa using hp : top = p).symm
      subst hp'
      exact hlt

/-- One loop iteration of the builder preserves the invariant, with the
bound advanced past the item just consumed. -/
lemma buildStep_inv (B : Nat) (s : BuildState) (item : FlatHeading)
    (hs : StateInv B s) (hb : B ≤ item.order) :
    StateInv (item.order + 1) (buildStep s item) := by
  obtain ⟨htree, hstack⟩ := hs
  obtain ⟨⟨htree', hwf', hchain', hbnd'⟩, hhead⟩ :=
    popWhile_inv (getHeadingLevel item.tag) B s.tree s.stack htree hstack
  refine ⟨htree', ?_, ?_, ?_⟩
  · intro e he
    rcases List.mem_cons.mp he with he | he
    · subst he; exact nodeWF_fresh item.tag item.text item.order
    · exact hwf' e he
  · refine List.chain'_cons'.mpr ⟨?_, hchain'⟩
    intro y hy
    refine ⟨hhead y hy, ?_⟩
    intro o ho
    have := (hbnd' y (List.mem_of_mem_head? hy)).2 o ho
    show o < item.order
    omega
  · intro e he
    rcases List.mem_cons.mp he with he | he
    · subst he
      refine ⟨?_, ?_⟩
      · show item.order < item.order + 1
        omega
      · intro o ho
        simp [childOrders] at ho
    · obtain ⟨h1, h2⟩ := hbnd' e he
      exact ⟨by omega, fun o ho => by have := h2 o ho; omega⟩

lemma foldl_buildStep_inv (l : List FlatHeading) :
    ∀ (B : Nat) (s : BuildState),
      StateInv B s → (∀ h ∈ l, B ≤ h.order) →
      l.Pairwise (fun x y => x.order < y.order) →
      ∃ B', StateInv B' (l.foldl buildStep s) := by
  induction l with
  | nil => intro B s hs _ _; exact ⟨B, hs⟩
  | cons a t ih =>
    intro B s hs hb hp
    rw [List.foldl_cons]
    refine ih (a.order + 1) (buildStep s a) (buildStep_inv B s a hs (hb a (by simp))) ?_ ?_
    · intro h hh
      have := (List.pairwise_cons.mp hp).1 h hh
      omega
    · exact (List.pairwise_cons.mp hp).2

/-- C2: on any scan (orders strictly increasing, tags valid heading tags)
the built forest is well-formed: every node's children appear in strictly
ascending `order`, and every child's parsed level strictly exceeds its
parent's, recursively. -/
theorem buildHeadingTree_wellFormed (l : List FlatHeading)
    (hv : ∀ h ∈ l, validHeadingTag h.tag)
    (ho : l.Pairwise fun x y => x.order < y.order) :
    ∀ n ∈ buildHeadingTree l, NodeWF n := by
  have hinit : StateInv 0 ⟨[], []⟩ := by
    refine ⟨?_, ?_, List.chain'_nil, ?_⟩ <;> intro x hx <;> cases hx
  obtain ⟨B', hinv⟩ := foldl_buildStep_inv l 0 ⟨[], []⟩ hinit (fun h _ => Nat.zero_le _) ho
  obtain ⟨⟨htree, -⟩, -⟩ :=
    popWhile_inv 0 B' (l.foldl buildStep ⟨[], []⟩).tree (l.foldl buildStep ⟨[], []⟩).stack
      hinv.1 hinv.2
  exact htree

/-- Witness for C2 on a concrete scan. -/
theorem buildHeadingTree_wellFormed_witness :
    ((∀ h ∈ exSiblings, validHeadingTag h.tag) ∧
      exSiblings.Pairwise fun x y => x.order < y.order) ∧
    ∀ n ∈ buildHeadingTree exSiblings, NodeWF n :=
  ⟨⟨by decide, by decide⟩, buildHeadingTree_wellFormed exSiblings (by decide) (by decide)⟩

/-! ## Sibling-placement lemmas (towards C3) -/

lemma treeHasSibPair_here {o1 o2 : Nat} (n : HeadingNode)
    (h1 : o1 ∈ childOrders n.children) (h2 : o2 ∈ childOrders n.children) :
    TreeHasSibPair o1 o2 n := by
  obtain ⟨tag, text, order, children⟩ := n
  exact .here tag text order children (by simpa [childOrders] using h1)
    (by simpa [childOrders] using h2)

lemma treeHasSibPair_child {o1 o2 : Nat} (n : HeadingNode) (c : HeadingNode)
    (hc : c ∈ n.children) (h : TreeHasSibPair o1 o2 c) : TreeHasSibPair o1 o2 n := by
  obtain ⟨tag, text, order, children⟩ := n
  exact .child tag text order children c hc h

lemma attachDown_head_level (level : Nat) (stack : List StackEntry) :
    ∀ (tree : List HeadingNode) (node : HeadingNode),
      ∀ p ∈ (attachDown level tree node stack).stack.head?, entryLevel p < level := by
  induction stack with
  | nil => intro tree node p hp; simp [attachDown] at hp
  | cons parent rest ih =>
    intro tree node p hp
    simp only [attachDown] at hp
    split at hp
    · exact ih tree _ p hp
    · rename_i hlt
      push_neg at hlt
      have hp' : p = { parent with children := parent.children ++ [node] } :=
        (by simpa using hp :
          ({ parent with children := parent.children ++ [node] } : StackEntry) = p).symm
      subst hp'
      exact hlt

lemma popWhile_head_level (level : Nat) (tree : List HeadingNode) (stack : List StackEntry) :
    ∀ p ∈ (popWhile level tree stack).stack.head?, entryLevel p < level := by
  match stack with
  | [] => intro p hp; simp [popWhile] at hp
  | top :: rest =>
    intro p hp
    simp only [popWhile] at hp
    split at hp
    · exact attachDown_head_level level rest tree (entryToNode top) p hp
    · rename_i hlt
      push_neg at hlt
      have hp' : p = top := (by simpa using hp : top = p).symm
      subst hp'
      exact hlt

lemma attachDown_stack_nil_of_ge (level : Nat) (stack : List StackEntry)
    (hge : ∀ e ∈ stack, level ≤ entryLevel e) :
    ∀ (tree : List HeadingNode) (node : HeadingNode),
      (attachDown level tree node stack).stack = [] := by
  induction stack with
  | nil => intro tree node; rfl
  | cons parent rest ih =>
    intro tree node
    simp only [attachDown]
    rw [if_pos]
    · exact ih (fun e he => hge e (by simp [he])) tree _
    · exact hge parent (by simp)

lemma popWhile_stack_nil_of_ge (level : Nat) (tree : List HeadingNode)
    (stack : List StackEntry) (hge : ∀ e ∈ stack, level ≤ entryLevel e) :
    (popWhile level tree stack).stack = [] := by
  match stack with
  | [] => rfl
  | top :: rest =>
    simp only [popWhile]
    rw [if_pos]
    · exact attachDown_stack_nil_of_ge level rest (fun e he => hge e (by simp [he])) tree _
    · exact hge top (by simp)

lemma popWhile_zero_stack_nil (tree : List HeadingNode) (stack : List StackEntry) :
    (popWhile 0 tree stack).stack = [] :=
  popWhile_stack_nil_of_ge 0 tree stack fun _ _ => Nat.zero_le _

/-- Any predicate on the stored tags survives the attach loop: entries are
only removed or have their children extended. -/
lemma attachDown_tags (P : String → Prop) (level : Nat) (stack : List StackEntry)
    (hp : ∀ e ∈ stack, P e.tag) :
    ∀ (tree : List HeadingNode) (node : HeadingNode),
      ∀ e ∈ (attachDown level tree node stack).stack, P e.tag := by
  induction stack with
  | nil => intro tree node e he; cases he
  | cons parent rest ih =>
    intro tree node e he
    simp only [attachDown] at he
    split at he
    · exact ih (fun e' he' => hp e' (by simp [he'])) tree _ e he
    · rcases List.mem_cons.mp he with he | he
      · subst he; exact hp parent (by simp)
      · exact hp e (by simp [he])

lemma popWhile_tags (P : String → Prop) (level : Nat) (tree : List HeadingNode)
    (stack : List StackEntry) (hp : ∀ e ∈ stack, P e.tag) :
    ∀ e ∈ (popWhile level tree stack).stack, P e.tag := by
  match stack with
  | [] => intro e he; cases he
  | top :: rest =>
    intro e he
    simp only [popWhile] at he
    split at he
    · exact attachDown_tags P level rest (fun e' he' => hp e' (by simp [he'])) tree _ e he
    · exact hp e he

lemma buildStep_tags (P : String → Prop) (s : BuildState) (item : FlatHeading)
    (hp : ∀ e ∈ s.stack, P e.tag) (hitem : P item.tag) :
    ∀ e ∈ (buildStep s item).stack, P e.tag := by
  intro e he
  simp only [buildStep] at he
  rcases List.mem_cons.mp he with he | he
  · subst he; exact hitem
  · exact popWhile_tags P _ s.tree s.stack hp e he

lemma foldl_buildStep_tags (P : String → Prop) (l : List FlatHeading) :
    ∀ s : BuildState, (∀ e ∈ s.stack, P e.tag) → (∀ h ∈ l, P h.tag) →
      ∀ e ∈ (l.foldl buildStep s).stack, P e.tag := by
  induction l with
  | nil => intro s hs _; exact hs
  | cons a t ih =>
    intro s hs hl
    rw [List.foldl_cons]
    exact ih (buildStep s a) (buildStep_tags P s a hs (hl a (by simp))) fun h hh => hl h (by simp [hh])

/-- The single-pop transformation preserves the sibling-tracking
configurations. -/
lemma sibState_pop (o1 o2 : Nat) (tree : List HeadingNode) (node : HeadingNode)
    (parent : StackEntry) (rest : List StackEntry)
    (h : SibState o1 o2 ⟨tree, toEntry node :: parent :: rest⟩) :
    SibState o1 o2 ⟨tree, { parent with children := parent.children ++ [node] } :: rest⟩ := by
  rcases h with h | h | h | h | h | h
  · -- a zip pair carried the configuration
    obtain ⟨p, hp, ho2, ho1⟩ := h
    simp only [List.tail_cons, List.zip_cons_cons, List.mem_cons] at hp
    rcases hp with hp | hp
    · -- the pair (node, parent): node closes into parent
      subst hp
      simp only at ho2 ho1
      refine Or.inr (Or.inl ?_)
      refine ⟨{ parent with children := parent.children ++ [node] }, by simp, ?_, ?_⟩
      · simp only [childOrders_append]
        exact List.mem_append.mpr (Or.inl ho1)
      · simp only [childOrders_append]
        refine List.mem_append.mpr (Or.inr ?_)
        simp [toEntry] at ho2
        simp [ho2]
    · -- a pair further down: intact (the new head keeps parent's order)
      match rest, hp with
      | q :: r, hp =>
        simp only [List.zip_cons_cons, List.mem_cons] at hp
        rcases hp with hp | hp
        · subst hp
          refine Or.inl ?_
          refine ⟨({ parent with children := parent.children ++ [node] }, q), ?_, ho2, ho1⟩
          simp [List.zip_cons_cons]
        · refine Or.inl ?_
          refine ⟨p, ?_, ho2, ho1⟩
          simp only [List.tail_cons, List.zip_cons_cons, List.mem_cons]
          right
          have : (q :: r).tail = r := rfl
          simpa [this] using hp
  · -- both orders inside one open entry
    obtain ⟨e, he, h1, h2⟩ := h
    rcases List.mem_cons.mp he with he | he
    · -- the closing entry itself: its node now carries the pair
      subst he
      refine Or.inr (Or.inr (Or.inr (Or.inl ?_)))
      refine ⟨{ parent with children := parent.children ++ [node] }, by simp, node, by simp, ?_⟩
      exact treeHasSibPair_here node h1 h2
    · rcases List.mem_cons.mp he with he | he
      · subst he
        refine Or.inr (Or.inl ?_)
        refine ⟨{ e with children := e.children ++ [node] }, by simp, ?_, ?_⟩ <;>
          simp only [childOrders_append] <;>
          [exact List.mem_append.mpr (Or.inl h1); exact List.mem_append.mpr (Or.inl h2)]
      · exact Or.inr (Or.inl ⟨e, by simp [he], h1, h2⟩)
  · -- pair inside a finished root
    exact Or.inr (Or.inr (Or.inl h))
  · -- pair inside a finished child of an open entry
    obtain ⟨e, he, c, hc, hpair⟩ := h
    rcases List.mem_cons.mp he with he | he
    · subst he
      refine Or.inr (Or.inr (Or.inr (Or.inl ?_)))
      exact ⟨{ parent with children := parent.children ++ [node] }, by simp, node, by simp,
        treeHasSibPair_child node c hc hpair⟩
    · rcases List.mem_cons.mp he with he | he
      · subst he
        refine Or.inr (Or.inr (Or.inr (Or.inl ?_)))
        exact ⟨{ e with children := e.children ++ [node] }, by simp, c,
          List.mem_append.mpr (Or.inl hc), hpair⟩
      · exact Or.inr (Or.inr (Or.inr (Or.inl ⟨e, by simp [he], c, hc, hpair⟩)))
  · -- o1 a root, o2 the stack bottom
    obtain ⟨hr, last, hlast, ho2⟩ := h
    match rest with
    | [] =>
      have hlp : parent = last := by simpa using hlast
      refine Or.inr (Or.inr (Or.inr (Or.inr (Or.inl ⟨hr, ?_⟩))))
      refine ⟨{ parent with children := parent.children ++ [node] }, by simp, ?_⟩
      show parent.order = o2
      rw [hlp]
      exact ho2
    | q :: r =>
      refine Or.inr (Or.inr (Or.inr (Or.inr (Or.inl ⟨hr, last, ?_, ho2⟩))))
      simpa [List.getLast?_cons_cons] using hlast
  · exact Or.inr (Or.inr (Or.inr (Or.inr (Or.inr h))))

lemma attachDown_sib (o1 o2 level : Nat) (stack : List StackEntry) :
    ∀ (tree : List HeadingNode) (node : HeadingNode),
      SibState o1 o2 ⟨tree, toEntry node :: stack⟩ →
      SibState o1 o2 (attachDown level tree node stack) := by
  induction stack with
  | nil =>
    intro tree node h
    show SibState o1 o2 ⟨tree ++ [node], []⟩
    rcases h with h | h | h | h | h | h
    · obtain ⟨p, hp, -, -⟩ := h
      simp at hp
    · obtain ⟨e, he, h1, h2⟩ := h
      have he' : e = toEntry node := by simpa using he
      subst he'
      exact Or.inr (Or.inr (Or.inl ⟨node, by simp, treeHasSibPair_here node h1 h2⟩))
    · obtain ⟨n, hn, hp⟩ := h
      exact Or.inr (Or.inr (Or.inl ⟨n, by simp [hn], hp⟩))
    · obtain ⟨e, he, c, hc, hp⟩ := h
      have he' : e = toEntry node := by simpa using he
      subst he'
      exact Or.inr (Or.inr (Or.inl ⟨node, by simp, treeHasSibPair_child node c hc hp⟩))
    · obtain ⟨⟨r, hr, ho1⟩, last, hlast, ho2⟩ := h
      have hl : toEntry node = last := by simpa using hlast
      refine Or.inr (Or.inr (Or.inr (Or.inr (Or.inr ⟨⟨r, by simp [hr], ho1⟩, node, by simp, ?_⟩))))
      show node.order = o2
      rw [show node.order = (toEntry node).order from rfl, hl]
      exact ho2
    · obtain ⟨⟨r, hr, ho1⟩, r', hr', ho2⟩ := h
      exact Or.inr (Or.inr (Or.inr (Or.inr (Or.inr
        ⟨⟨r, by simp [hr], ho1⟩, r', by simp [hr'], ho2⟩))))
  | cons parent rest ih =>
    intro tree node h
    have h' := sibState_pop o1 o2 tree node parent rest h
    simp only [attachDown]
    split
    · exact ih tree (entryToNode { parent with children := parent.children ++ [node] }) h'
    · exact h'

lemma popWhile_sib (o1 o2 level : Nat) (tree : List HeadingNode) (stack : List StackEntry)
    (h : SibState o1 o2 ⟨tree, stack⟩) :
    SibState o1 o2 (popWhile level tree stack) := by
  match stack with
  | [] => exact h
  | top :: rest =>
    simp only [popWhile]
    split
    · exact attachDown_sib o1 o2 level rest tree (entryToNode top) h
    · exact h

lemma sibState_push (o1 o2 : Nat) (s : BuildState) (e : StackEntry)
    (h : SibState o1 o2 s) : SibState o1 o2 ⟨s.tree, e :: s.stack⟩ := by
  rcases h with h | h | h | h | h | h
  · obtain ⟨p, hp, ho2, ho1⟩ := h
    refine Or.inl ⟨p, ?_, ho2, ho1⟩
    match hs : s.stack with
    | [] => rw [hs] at hp; simp at hp
    | q :: r =>
      rw [hs] at hp
      simp only [List.tail_cons] at hp ⊢
      simp only [List.zip_cons_cons, List.mem_cons]
      right
      simpa using hp
  · obtain ⟨x, hx, h1, h2⟩ := h
    exact Or.inr (Or.inl ⟨x, by simp [hx], h1, h2⟩)
  · exact Or.inr (Or.inr (Or.inl h))
  · obtain ⟨x, hx, c, hc, hp⟩ := h
    exact Or.inr (Or.inr (Or.inr (Or.inl ⟨x, by simp [hx], c, hc, hp⟩)))
  · obtain ⟨hr, last, hlast, ho2⟩ := h
    refine Or.inr (Or.inr (Or.inr (Or.inr (Or.inl ⟨hr, last, ?_, ho2⟩))))
    match hs : s.stack with
    | [] => rw [hs] at hlast; simp at hlast
    | q :: r =>
      rw [hs] at hlast
      simpa [List.getLast?_cons_cons] using hlast
  · exact Or.inr (Or.inr (Or.inr (Or.inr (Or.inr h))))

lemma buildStep_sib (o1 o2 : Nat) (s : BuildState) (item : FlatHeading)
    (h : SibState o1 o2 s) : SibState o1 o2 (buildStep s item) :=
  sibState_push o1 o2 (popWhile (getHeadingLevel item.tag) s.tree s.stack) _
    (popWhile_sib o1 o2 (getHeadingLevel item.tag) s.tree s.stack h)

lemma foldl_buildStep_sib (o1 o2 : Nat) (l : List FlatHeading) :
    ∀ s : BuildState, SibState o1 o2 s → SibState o1 o2 (l.foldl buildStep s) := by
  induction l with
  | nil => intro s h; exact h
  | cons a t ih =>
    intro s h
    rw [List.foldl_cons]
    exact ih (buildStep s a) (buildStep_sib o1 o2 s a h)

lemma sibState_nil_stack (o1 o2 : Nat) (s : BuildState) (hs : s.stack = [])
    (h : SibState o1 o2 s) : areSiblings s.tree o1 o2 := by
  rcases h with h | h | h | h | h | h
  · obtain ⟨p, hp, -, -⟩ := h
    rw [hs] at hp
    simp at hp
  · obtain ⟨e, he, -, -⟩ := h
    rw [hs] at he
    cases he
  · exact Or.inr h
  · obtain ⟨e, he, -⟩ := h
    rw [hs] at he
    cases he
  · obtain ⟨-, last, hlast, -⟩ := h
    rw [hs] at hlast
    simp at hlast
  · obtain ⟨⟨r, hr, ho1⟩, r', hr', ho2⟩ := h
    exact Or.inl ⟨List.mem_map.mpr ⟨r, hr, ho1⟩, List.mem_map.mpr ⟨r', hr', ho2⟩⟩

/-! ## Root-placement lemmas (towards C3's H1 clause) -/

lemma rootState_pop (o : Nat) (tg tx : String) (tree : List HeadingNode) (node : HeadingNode)
    (parent : StackEntry) (rest : List StackEntry)
    (h : RootState o tg tx ⟨tree, toEntry node :: parent :: rest⟩) :
    RootState o tg tx ⟨tree, { parent with children := parent.children ++ [node] } :: rest⟩ := by
  rcases h with h | h
  · exact Or.inl h
  · obtain ⟨last, hlast, h1, h2, h3⟩ := h
    have hlast' : last ∈ (parent :: rest).getLast? := by
      simpa [List.getLast?_cons_cons] using hlast
    match rest with
    | [] =>
      have hlp : parent = last := by simpa using hlast'
      refine Or.inr ⟨{ parent with children := parent.children ++ [node] }, by simp, ?_, ?_, ?_⟩
      · show parent.tag = tg
        rw [hlp]; exact h1
      · show parent.text = tx
        rw [hlp]; exact h2
      · show parent.order = o
        rw [hlp]; exact h3
    | q :: r =>
      refine Or.inr ⟨last, ?_, h1, h2, h3⟩
      simpa [List.getLast?_cons_cons] using hlast'

lemma attachDown_root (o : Nat) (tg tx : String) (level : Nat) (stack : List StackEntry) :
    ∀ (tree : List HeadingNode) (node : HeadingNode),
      RootState o tg tx ⟨tree, toEntry node :: stack⟩ →
      RootState o tg tx (attachDown level tree node stack) := by
  induction stack with
  | nil =>
    intro tree node h
    show RootState o tg tx ⟨tree ++ [node], []⟩
    rcases h with h | h
    · obtain ⟨r, hr, hf⟩ := h
      exact Or.inl ⟨r, by simp [hr], hf⟩
    · obtain ⟨last, hlast, h1, h2, h3⟩ := h
      have hl : toEntry node = last := by simpa using hlast
      refine Or.inl ⟨node, by simp, ?_, ?_, ?_⟩
      · show (toEntry node).tag = tg
        rw [hl]; exact h1
      · show (toEntry node).text = tx
        rw [hl]; exact h2
      · show (toEntry node).order = o
        rw [hl]; exact h3
  | cons parent rest ih =>
    intro tree node h
    have h' := rootState_pop o tg tx tree node parent rest h
    simp only [attachDown]
    split
    · exact ih tree (entryToNode { parent with children := parent.children ++ [node] }) h'
    · exact h'

lemma popWhile_root (o : Nat) (tg tx : String) (level : Nat) (tree : List HeadingNode)
    (stack : List StackEntry) (h : RootState o tg tx ⟨tree, stack⟩) :
    RootState o tg tx (popWhile level tree stack) := by
  match stack with
  | [] => exact h
  | top :: rest =>
    simp only [popWhile]
    split
    · exact attachDown_root o tg tx level rest tree (entryToNode top) h
    · exact h

lemma rootState_push (o : Nat) (tg tx : String) (s : BuildState) (e : StackEntry)
    (h : RootState o tg tx s) : RootState o tg tx ⟨s.tree, e :: s.stack⟩ := by
  rcases h with h | h
  · exact Or.inl h
  · obtain ⟨last, hlast, h1, h2, h3⟩ := h
    refine Or.inr ⟨last, ?_, h1, h2, h3⟩
    match hs : s.stack with
    | [] => rw [hs] at hlast; simp at hlast
    | q :: r =>
      rw [hs] at hlast
      simpa [List.getLast?_cons_cons] using hlast

lemma buildStep_root (o : Nat) (tg tx : String) (s : BuildState) (item : FlatHeading)
    (h : RootState o tg tx s) : RootState o tg tx (buildStep s item) :=
  rootState_push o tg tx (popWhile (getHeadingLevel item.tag) s.tree s.stack) _
    (popWhile_root o tg tx (getHeadingLevel item.tag) s.tree s.stack h)

lemma foldl_buildStep_root (o : Nat) (tg tx : String) (l : List FlatHeading) :
    ∀ s : BuildState, RootState o tg tx s → RootState o tg tx (l.foldl buildStep s) := by
  induction l with
  | nil => intro s h; exact h
  | cons a t ih =>
    intro s h
    rw [List.foldl_cons]
    exact ih (buildStep s a) (buildStep_root o tg tx s a h)

lemma rootState_nil_stack (o : Nat) (tg tx : String) (s : BuildState) (hs : s.stack = [])
    (h : RootState o tg tx s) : ∃ r ∈ s.tree, r.tag = tg ∧ r.text = tx ∧ r.order = o := by
  rcases h with h | h
  · exact h
  · obtain ⟨last, hlast, -⟩ := h
    rw [hs] at hlast
    simp at hlast

lemma validHeadingTag_level (t : String) (h : validHeadingTag t) :
    1 ≤ getHeadingLevel t := by
  simp only [validHeadingTag, List.mem_cons, List.not_mem_nil, or_false] at h
  rcases h with h | h | h | h | h | h <;> subst h <;> decide

/-- Establishment: processing two consecutive equal-level headings puts
the state into a sibling-tracking configuration for their orders. -/
lemma buildStep_pair_sib (s0 : BuildState) (a b : FlatHeading)
    (hlev : getHeadingLevel a.tag = getHeadingLevel b.tag) :
    SibState a.order b.order (buildStep (buildStep s0 a) b) := by
  have hhead := popWhile_head_level (getHeadingLevel a.tag) s0.tree s0.stack
  have h1 : buildStep s0 a =
      ⟨(popWhile (getHeadingLevel a.tag) s0.tree s0.stack).tree,
        ⟨a.tag, a.text, a.order, []⟩ ::
          (popWhile (getHeadingLevel a.tag) s0.tree s0.stack).stack⟩ := rfl
  rw [h1]
  have hcond : getHeadingLevel a.tag ≥ getHeadingLevel b.tag := le_of_eq hlev.symm
  cases hst : (popWhile (getHeadingLevel a.tag) s0.tree s0.stack).stack with
  | nil =>
    have h2 : buildStep
        (⟨(popWhile (getHeadingLevel a.tag) s0.tree s0.stack).tree,
          [⟨a.tag, a.text, a.order, []⟩]⟩ : BuildState) b =
        ⟨(popWhile (getHeadingLevel a.tag) s0.tree s0.stack).tree ++
            [⟨a.tag, a.text, a.order, []⟩],
          [⟨b.tag, b.text, b.order, []⟩]⟩ := by
      show (⟨(popWhile (getHeadingLevel b.tag)
          (popWhile (getHeadingLevel a.tag) s0.tree s0.stack).tree
          [⟨a.tag, a.text, a.order, []⟩]).tree,
        ⟨b.tag, b.text, b.order, []⟩ ::
          (popWhile (getHeadingLevel b.tag)
            (popWhile (getHeadingLevel a.tag) s0.tree s0.stack).tree
            [⟨a.tag, a.text, a.order, []⟩]).stack⟩ : BuildState) = _
      rw [show popWhile (getHeadingLevel b.tag)
          (popWhile (getHeadingLevel a.tag) s0.tree s0.stack).tree
          [⟨a.tag, a.text, a.order, []⟩] =
          ⟨(popWhile (getHeadingLevel a.tag) s0.tree s0.stack).tree ++
            [⟨a.tag, a.text, a.order, []⟩], []⟩ from by
        simp only [popWhile]
        rw [if_pos hcond]
        rfl]
    rw [h2]
    refine Or.inr (Or.inr (Or.inr (Or.inr (Or.inl
      ⟨⟨⟨a.tag, a.text, a.order, []⟩, by simp, rfl⟩,
        ⟨b.tag, b.text, b.order, []⟩, by simp, rfl⟩))))
  | cons q r =>
    have hql : entryLevel q < getHeadingLevel b.tag := by
      rw [← hlev]
      exact hhead q (by rw [hst]; rfl)
    have h2 : buildStep
        (⟨(popWhile (getHeadingLevel a.tag) s0.tree s0.stack).tree,
          ⟨a.tag, a.text, a.order, []⟩ :: q :: r⟩ : BuildState) b =
        ⟨(popWhile (getHeadingLevel a.tag) s0.tree s0.stack).tree,
          ⟨b.tag, b.text, b.order, []⟩ ::
            { q with children := q.children ++ [⟨a.tag, a.text, a.order, []⟩] } :: r⟩ := by
      show (⟨(popWhile (getHeadingLevel b.tag)
          (popWhile (getHeadingLevel a.tag) s0.tree s0.stack).tree
          (⟨a.tag, a.text, a.order, []⟩ :: q :: r)).tree,
        ⟨b.tag, b.text, b.order, []⟩ ::
          (popWhile (getHeadingLevel b.tag)
            (popWhile (getHeadingLevel a.tag) s0.tree s0.stack).tree
            (⟨a.tag, a.text, a.order, []⟩ :: q :: r)).stack⟩ : BuildState) = _
      rw [show popWhile (getHeadingLevel b.tag)
          (popWhile (getHeadingLevel a.tag) s0.tree s0.stack).tree
          (⟨a.tag, a.text, a.order, []⟩ :: q :: r) =
          ⟨(popWhile (getHeadingLevel a.tag) s0.tree s0.stack).tree,
            { q with children := q.children ++ [⟨a.tag, a.text, a.order, []⟩] } :: r⟩ from by
        simp only [popWhile, attachDown]
        rw [if_pos hcond, if_neg]
        · rfl
        · show ¬ getHeadingLevel q.tag ≥ getHeadingLevel b.tag
          simp only [entryLevel] at hql
          omega]
    rw [h2]
    refine Or.inl ⟨(⟨b.tag, b.text, b.order, []⟩,
      { q with children := q.children ++ [⟨a.tag, a.text, a.order, []⟩] }), ?_, rfl, ?_⟩
    · simp [List.zip_cons_cons]
    · show a.order ∈ childOrders (q.children ++ [⟨a.tag, a.text, a.order, []⟩])
      rw [childOrders_append]
      exact List.mem_append.mpr (Or.inr (by simp))

/-- C3: two consecutive equal-level headings become siblings in the built
forest (both roots or children of one common node), and every H1 in a
valid scan becomes a forest root. -/
theorem buildHeadingTree_placement :
    (∀ (l1 l2 : List FlatHeading) (a b : FlatHeading),
      (∀ x ∈ l1 ++ a :: b :: l2, validHeadingTag x.tag) →
      getHeadingLevel a.tag = getHeadingLevel b.tag →
      areSiblings (buildHeadingTree (l1 ++ a :: b :: l2)) a.order b.order) ∧
    (∀ (l : List FlatHeading) (h : FlatHeading),
      (∀ x ∈ l, validHeadingTag x.tag) → h ∈ l → getHeadingLevel h.tag = 1 →
      ∃ r ∈ buildHeadingTree l, r.tag = h.tag ∧ r.text = h.text ∧ r.order = h.order) := by
  constructor
  · intro l1 l2 a b _hv hlev
    have hfold : (l1 ++ a :: b :: l2).foldl buildStep ⟨[], []⟩ =
        l2.foldl buildStep (buildStep (buildStep (l1.foldl buildStep ⟨[], []⟩) a) b) := by
      rw [List.foldl_append]
      rfl
    have hsib := foldl_buildStep_sib a.order b.order l2 _
      (buildStep_pair_sib (l1.foldl buildStep ⟨[], []⟩) a b hlev)
    have hfin := popWhile_sib a.order b.order 0
      ((l1 ++ a :: b :: l2).foldl buildStep ⟨[], []⟩).tree
      ((l1 ++ a :: b :: l2).foldl buildStep ⟨[], []⟩).stack
      (by rw [hfold]; exact hsib)
    exact sibState_nil_stack a.order b.order _
      (popWhile_zero_stack_nil _ _) hfin
  · intro l h hv hmem hlev1
    obtain ⟨l1, l2, rfl⟩ := List.append_of_mem hmem
    have hge : ∀ e ∈ (l1.foldl buildStep ⟨[], []⟩).stack, 1 ≤ entryLevel e := by
      intro e he
      exact foldl_buildStep_tags (fun t => 1 ≤ getHeadingLevel t) l1 ⟨[], []⟩
        (by intro x hx; cases hx)
        (fun x hx => validHeadingTag_level x.tag (hv x (List.mem_append.mpr (Or.inl hx))))
        e he
    have hnilstack : (popWhile (getHeadingLevel h.tag)
        (l1.foldl buildStep ⟨[], []⟩).tree (l1.foldl buildStep ⟨[], []⟩).stack).stack = [] := by
      apply popWhile_stack_nil_of_ge
      intro e he
      rw [hlev1]
      exact hge e he
    have hroot : RootState h.order h.tag h.text (buildStep (l1.foldl buildStep ⟨[], []⟩) h) := by
      have h1 : buildStep (l1.foldl buildStep ⟨[], []⟩) h =
          ⟨(popWhile (getHeadingLevel h.tag) (l1.foldl buildStep ⟨[], []⟩).tree
              (l1.foldl buildStep ⟨[], []⟩).stack).tree,
            ⟨h.tag, h.text, h.order, []⟩ ::
              (popWhile (getHeadingLevel h.tag) (l1.foldl buildStep ⟨[], []⟩).tree
                (l1.foldl buildStep ⟨[], []⟩).stack).stack⟩ := rfl
      rw [h1, hnilstack]
      exact Or.inr ⟨⟨h.tag, h.text, h.order, []⟩, by simp, rfl, rfl, rfl⟩
    have hfold : (l1 ++ h :: l2).foldl buildStep ⟨[], []⟩ =
        l2.foldl buildStep (buildStep (l1.foldl buildStep ⟨[], []⟩) h) := by
      rw [List.foldl_append]
      rfl
    have hfin := popWhile_root h.order h.tag h.text 0
      ((l1 ++ h :: l2).foldl buildStep ⟨[], []⟩).tree
      ((l1 ++ h :: l2).foldl buildStep ⟨[], []⟩).stack
      (by rw [hfold]; exact foldl_buildStep_root h.order h.tag h.text l2 _ hroot)
    exact rootState_nil_stack h.order h.tag h.text _
      (popWhile_zero_stack_nil _ _) hfin

/-- Witness for C3: siblings on `[h1] ++ h2 :: h2 :: [h3]`, and the H1 of
`exSiblings` as a root. -/
theorem buildHeadingTree_placement_witness :
    ((∀ x ∈ exPairL1 ++ exPairA :: exPairB :: exPairL2, validHeadingTag x.tag) ∧
      getHeadingLevel exPairA.tag = getHeadingLevel exPairB.tag ∧
      (∀ x ∈ exSiblings, validHeadingTag x.tag) ∧
      (⟨"h1", "Title", 1⟩ : FlatHeading) ∈ exSiblings ∧
      getHeadingLevel (FlatHeading.tag ⟨"h1", "Title", 1⟩) = 1) ∧
    areSiblings (buildHeadingTree (exPairL1 ++ exPairA :: exPairB :: exPairL2))
      exPairA.order exPairB.order ∧
    ∃ r ∈ buildHeadingTree exSiblings,
      r.tag = FlatHeading.tag ⟨"h1", "Title", 1⟩ ∧
      r.text = FlatHeading.text ⟨"h1", "Title", 1⟩ ∧
      r.order = FlatHeading.order ⟨"h1", "Title", 1⟩ :=
  ⟨⟨by decide, by decide, by decide, by decide, by decide⟩,
    buildHeadingTree_placement.1 exPairL1 exPairL2 exPairA exPairB (by decide) (by decide),
    buildHeadingTree_placement.2 exSiblings ⟨"h1", "Title", 1⟩ (by decide) (by decide) (by decide)⟩

/-- Cross-check of the builder embedding against the specification's
concrete scenario: one H1 root with two H2 children, the first of which
holds the H3. -/
theorem buildHeadingTree_scenario :
    buildHeadingTree exSiblings =
      [⟨"h1", "Title", 1,
        [⟨"h2", "Sec A", 2, [⟨"h3", "Sub", 3, []⟩]⟩, ⟨"h2", "Sec B", 4, []⟩]⟩] := rfl

end SeoMcp
